import Mathlib

/-!
Verification of the syntactic type-inference and export-analysis core of a
TypeScript AST utility library.  The definitions below are a shallow embedding
of the relevant source functions (src/core/node-analysis.ts,
src/core/node-extraction.ts, the objects-analysis and exports-analysis
modules): TypeScript AST nodes become inductive types, the analysis
functions become Lean functions mirroring the source control flow, and JS
runtime details that the code observes (Set insertion order, string
truthiness, the undefined value) are modelled explicitly.
-/

set_option maxHeartbeats 1000000

namespace TsAstUtils

/-! ## JS helpers

JS Array.prototype.sort with the default comparator sorts strings by code
units; on the ASCII type strings produced here this is the lexicographic
order of Lean strings.  Any correct sort for a total antisymmetric order is
extensionally unique, so insertionSort is a faithful model. -/

/-- Lexicographic comparison of char lists (true when the first is ≤ the
second), comparing characters by code point: an executable model of the JS
default string comparison, which agrees with it on the ASCII strings this
library produces. -/
def charListLe : List Char → List Char → Bool
  | [], _ => true
  | _ :: _, [] => false
  | a :: as, b :: bs =>
      if a < b then true
      else if b < a then false
      else charListLe as bs

/-- String comparison used by the sort. -/
def strLe (a b : String) : Bool := charListLe a.data b.data

theorem charListLe_total : ∀ x y, charListLe x y = true ∨ charListLe y x = true
  | [], _ => Or.inl rfl
  | _ :: _, [] => Or.inr rfl
  | a :: as, b :: bs => by
      by_cases hab : a < b
      · left; simp [charListLe, hab]
      · by_cases hba : b < a
        · right; simp [charListLe, hba, hab]
        · rcases charListLe_total as bs with h | h
          · left; simp [charListLe, hab, hba, h]
          · right; simp [charListLe, hab, hba, h]

theorem charListLe_antisymm :
    ∀ x y, charListLe x y = true → charListLe y x = true → x = y
  | [], [], _, _ => rfl
  | [], _ :: _, _, h => by simp [charListLe] at h
  | _ :: _, [], h, _ => by simp [charListLe] at h
  | a :: as, b :: bs, h1, h2 => by
      by_cases hab : a < b
      · simp [charListLe, hab, lt_asymm hab] at h2
      · by_cases hba : b < a
        · simp [charListLe, hab, hba] at h1
        · have hEqAB : a = b := le_antisymm (le_of_not_lt hba) (le_of_not_lt hab)
          subst hEqAB
          simp only [charListLe, lt_self_iff_false, if_false] at h1 h2
          rw [charListLe_antisymm as bs h1 h2]

theorem charListLe_trans :
    ∀ x y z, charListLe x y = true → charListLe y z = true → charListLe x z = true
  | [], _, _, _, _ => rfl
  | _ :: _, [], _, h, _ => by simp [charListLe] at h
  | _ :: _, _ :: _, [], _, h => by simp [charListLe] at h
  | a :: as, b :: bs, c :: cs, h1, h2 => by
      by_cases hab : a < b <;> by_cases hbc : b < c
      · have hac : a < c := lt_trans hab hbc
        simp [charListLe, hac]
      · have hbc' : c ≤ b := le_of_not_lt hbc
        by_cases hcb : c < b
        · simp [charListLe, hcb, lt_asymm hcb] at h2
        · have : b = c := le_antisymm (le_of_not_lt hcb) hbc'
          subst this
          simp [charListLe, hab]
      · have hab' : b ≤ a := le_of_not_lt hab
        by_cases hba : b < a
        · simp [charListLe, hab, hba] at h1
        · have : a = b := le_antisymm (le_of_not_lt hba) hab'
          subst this
          simp [charListLe, hbc]
      · by_cases hba : b < a
        · simp [charListLe, hab, hba] at h1
        · by_cases hcb : c < b
          · simp [charListLe, hbc, hcb] at h2
          · have h1' : a = b := le_antisymm (le_of_not_lt hba) (le_of_not_lt hab)
            have h2' : b = c := le_antisymm (le_of_not_lt hcb) (le_of_not_lt hbc)
            subst h1'; subst h2'
            simp only [charListLe, lt_self_iff_false, if_false] at h1 h2 ⊢
            exact charListLe_trans as bs cs h1 h2

theorem string_eq_of_data_eq {a b : String} (h : a.data = b.data) : a = b := by
  cases a; cases b; exact congrArg String.mk h

instance : IsTotal String (fun a b => strLe a b = true) :=
  ⟨fun a b => charListLe_total a.data b.data⟩

instance : IsTrans String (fun a b => strLe a b = true) :=
  ⟨fun a b c h1 h2 => charListLe_trans a.data b.data c.data h1 h2⟩

instance : IsAntisymm String (fun a b => strLe a b = true) :=
  ⟨fun a b h1 h2 => string_eq_of_data_eq (charListLe_antisymm a.data b.data h1 h2)⟩

def sortStrings (l : List String) : List String :=
  List.insertionSort (fun a b : String => strLe a b = true) l

theorem sortStrings_eq_of_perm {l1 l2 : List String} (h : l1.Perm l2) :
    sortStrings l1 = sortStrings l2 := by
  apply List.eq_of_perm_of_sorted (r := fun a b : String => strLe a b = true)
  · exact ((List.perm_insertionSort _ l1).trans h).trans
      (List.perm_insertionSort _ l2).symm
  · exact List.sorted_insertionSort _ l1
  · exact List.sorted_insertionSort _ l2

/-- A JS Set accumulates elements in insertion order, ignoring duplicates;
this is one `add` step. -/
def pushUnique (acc : List String) (x : String) : List String :=
  if x ∈ acc then acc else acc ++ [x]

/-- `Array.from(new Set(l))`: the elements of `l` in first-seen order. -/
def jsSetOfList (l : List String) : List String := l.foldl pushUnique []

/-- First-seen-order deduplication, written as an independent recursion so
that the agreement with the JS Set model is a real statement. -/
def dedupKeepFirst : List String → List String
  | [] => []
  | x :: xs => x :: dedupKeepFirst (xs.filter (fun y => y ≠ x))
  termination_by l => l.length
  decreasing_by
    simp only [List.length_cons]
    exact Nat.lt_succ_of_le (List.length_filter_le _ _)

/-! ## Type-annotation nodes (ts.TypeNode) and their serialization -/

/-- The literal wrapped by a ts.LiteralTypeNode.  `otherLiteral` carries the
source text of the whole literal-type node, which is what the fallback
`typeNode.getText()` returns when the wrapped literal is none of the four
recognized shapes. -/
inductive TsLiteral where
  | strLit (text : String)
  | numLit (text : String)
  | trueKeyword
  | falseKeyword
  | otherLiteral (nodeText : String)

/-- A ts.PropertyName as inspected by serializeTypeNode / parseObjectType:
only identifier and string-literal names are ever read; numeric and computed
names fall into `otherName`. -/
inductive TypePropName where
  | ident (text : String)
  | strLit (text : String)
  | otherName

mutual

/-- ts.TypeNode, restricted to the shapes serializeTypeNode distinguishes;
`otherTypeNode` carries the `getText()` fallback of any other kind. -/
inductive TypeNode where
  | stringKeyword | numberKeyword | booleanKeyword | nullKeyword
  | undefinedKeyword | voidKeyword | anyKeyword | unknownKeyword | neverKeyword
  | arrayType (elementType : TypeNode)
  | unionType (types : List TypeNode)
  | intersectionType (types : List TypeNode)
  | literalType (literal : TsLiteral)
  | typeReference (typeName : String) (typeArguments : List TypeNode)
  | typeLiteral (members : List TypeMember)
  | parenthesizedType (inner : TypeNode)
  | otherTypeNode (text : String)

/-- A member of a type literal; only plain property signatures are read. -/
inductive TypeMember where
  | propertySignature (name : TypePropName) (type : Option TypeNode)
  | otherMember

end

/-- The identifier/string-literal text of a property name, when present. -/
def typePropNameText : TypePropName → Option String
  | .ident text => some text
  | .strLit text => some text
  | .otherName => none

mutual

/-- serializeTypeNode (node-analysis.ts): string form of a type node. -/
def serializeTypeNode : TypeNode → String
  | .stringKeyword => "string"
  | .numberKeyword => "number"
  | .booleanKeyword => "boolean"
  | .nullKeyword => "null"
  | .undefinedKeyword => "undefined"
  | .voidKeyword => "void"
  | .anyKeyword => "any"
  | .unknownKeyword => "unknown"
  | .neverKeyword => "never"
  | .arrayType elementType => serializeTypeNode elementType ++ "[]"
  | .unionType types =>
      String.intercalate " | " (sortStrings (serializeTypeNodeList types))
  | .intersectionType types =>
      String.intercalate " & " (serializeTypeNodeList types)
  | .literalType lit =>
      match lit with
      | .strLit text => "\"" ++ text ++ "\""
      | .numLit text => text
      | .trueKeyword => "true"
      | .falseKeyword => "false"
      | .otherLiteral nodeText => nodeText
  | .typeReference typeName typeArguments =>
      if typeArguments.length > 0 then
        typeName ++ "<" ++
          String.intercalate ", " (serializeTypeNodeList typeArguments) ++ ">"
      else typeName
  | .typeLiteral members =>
      "\x7b " ++ String.intercalate "; " (serializeTypeMembers members) ++ " \x7d"
  | .parenthesizedType inner => serializeTypeNode inner
  | .otherTypeNode text => text

/-- The per-member map of serializeTypeNode over a node list. -/
def serializeTypeNodeList : List TypeNode → List String
  | [] => []
  | t :: ts => serializeTypeNode t :: serializeTypeNodeList ts

/-- The rendered members of a type literal: a property signature contributes
`name: type` when its name is an identifier or string literal whose text is
truthy (nonempty) and it has a declared type; every other member is
skipped. -/
def serializeTypeMembers : List TypeMember → List String
  | [] => []
  | .propertySignature name type :: ms =>
      match typePropNameText name with
      | some propName =>
          if propName ≠ "" then
            match type with
            | some ty =>
                (propName ++ ": " ++ serializeTypeNode ty) ::
                  serializeTypeMembers ms
            | none => serializeTypeMembers ms
          else serializeTypeMembers ms
      | none => serializeTypeMembers ms
  | .otherMember :: ms => serializeTypeMembers ms

end

theorem serializeTypeNodeList_eq_map (ts : List TypeNode) :
    serializeTypeNodeList ts = ts.map serializeTypeNode := by
  induction ts with
  | nil => simp [serializeTypeNodeList]
  | cons t ts ih => simp [serializeTypeNodeList, ih]

/-- C1: for every union type node, serializeTypeNode recurses on every
member, sorts the member strings lexicographically and joins them with
" | "; hence two union nodes whose member lists serialize, in any source
order, to the same strings produce identical serialized unions. -/
theorem serializeTypeNode_union_canonical (ts1 ts2 : List TypeNode)
    (h : (ts1.map serializeTypeNode).Perm (ts2.map serializeTypeNode)) :
    serializeTypeNode (.unionType ts1) =
      String.intercalate " | " (sortStrings (ts1.map serializeTypeNode)) ∧
    serializeTypeNode (.unionType ts1) = serializeTypeNode (.unionType ts2) := by
  constructor
  · simp [serializeTypeNode, serializeTypeNodeList_eq_map]
  · simp only [serializeTypeNode, serializeTypeNodeList_eq_map]
    rw [sortStrings_eq_of_perm h]

/-- Witness for C1 at the unions `string | number` and `number | string`. -/
theorem serializeTypeNode_union_canonical_witness :
    ([TypeNode.stringKeyword, TypeNode.numberKeyword].map serializeTypeNode).Perm
      ([TypeNode.numberKeyword, TypeNode.stringKeyword].map serializeTypeNode) ∧
    serializeTypeNode (.unionType [TypeNode.stringKeyword, TypeNode.numberKeyword]) =
      serializeTypeNode (.unionType [TypeNode.numberKeyword, TypeNode.stringKeyword]) := by
  have h : ([TypeNode.stringKeyword, TypeNode.numberKeyword].map serializeTypeNode).Perm
      ([TypeNode.numberKeyword, TypeNode.stringKeyword].map serializeTypeNode) := by
    simp only [List.map, serializeTypeNode]
    exact List.Perm.swap _ _ _
  exact ⟨h, (serializeTypeNode_union_canonical _ _ h).2⟩

/-! ## Expression nodes (ts.Expression) -/

/-- A ts.PropertyName in an object-literal property slot, as inspected by
the expression-side analyses. -/
inductive PropKey where
  | ident (text : String)
  | strLit (text : String)
  | otherKey

/-- Binary operator tokens that inferTypeFromExpression distinguishes. -/
inductive BinaryOp where
  | barBar | ampAmp
  | eqEqEq | exclEqEq | ltTok | gtTok | leTok | geTok
  | percent | plus | minus | asterisk | slash
  | otherOp

/-- Unary operator tokens that inferTypeFromExpression distinguishes. -/
inductive UnaryOp where
  | excl | plusOp | minusOp | otherUnaryOp

mutual

/-- ts.Expression restricted to the shapes the analyses distinguish.
Call arguments, the condition of a conditional and the asserted type of an
as-expression are consulted only where the source consults them;
`otherExpression` stands for every other node kind, all of which reach the
fallback in every analysis below. -/
inductive Expression where
  | stringLiteral (text : String)
  | numericLiteral (text : String)
  | trueKeyword | falseKeyword | nullKeyword | undefinedKeyword
  | arrayLiteral (elements : List Expression)
  | omittedExpression
  | spreadElement (expression : Expression)
  | objectLiteral (properties : List ObjectProp)
  | newExpression (callee : Expression)
  | asExpression (expression : Expression) (asserted : TypeNode)
  | conditionalExpression (condition whenTrue whenFalse : Expression)
  | binaryExpression (left : Expression) (op : BinaryOp) (right : Expression)
  | callExpression (callee : Expression)
  | propertyAccessExpression (expression : Expression) (name : String)
  | prefixUnaryExpression (op : UnaryOp) (operand : Expression)
  | identifier (text : String)
  | templateExpression
  | noSubstitutionTemplateLiteral (text : String)
  | otherExpression

/-- A property slot of an object-literal expression. -/
inductive ObjectProp where
  | propertyAssignment (name : PropKey) (initializer : Expression)
  | shorthandPropertyAssignment (name : String)
  | methodDeclaration (name : PropKey)
  | otherProp

end

/-! ## Literal extraction (node-extraction.ts) -/

/-- The JS runtime value produced by getLiteralValue.  `undefinedVal` is the
single JS value `undefined`; the source returns it both for an
undefined-keyword node and as the not-a-literal fallback, so the model has
one constructor for both.  `Number(text)` is modelled by the numeric source
text (no claim depends on the numeric parse). -/
inductive JSValue where
  | str (s : String)
  | num (text : String)
  | boolVal (b : Bool)
  | nullVal
  | undefinedVal
deriving DecidableEq, Repr

/-- getLiteralValue (node-extraction.ts): literal value of a node. -/
def getLiteralValue : Expression → JSValue
  | .stringLiteral text => .str text
  | .noSubstitutionTemplateLiteral text => .str text
  | .numericLiteral text => .num text
  | .trueKeyword => .boolVal true
  | .falseKeyword => .boolVal false
  | .nullKeyword => .nullVal
  | .undefinedKeyword => .undefinedVal
  | _ => .undefinedVal

/-- getArrayLiteralValues (node-extraction.ts): map the elements through
getLiteralValue and keep the values that are not the JS undefined. -/
def getArrayLiteralValues : Expression → List JSValue
  | .arrayLiteral elements =>
      (elements.map getLiteralValue).filter (fun val => val ≠ .undefinedVal)
  | _ => []

/-! ## Object-literal property queries -/

/-- hasProperty (node-analysis.ts): some slot is a property assignment or a
method declaration whose name is an identifier with the queried text.  The
argument list is the `properties` of the object-literal node. -/
def hasProperty (properties : List ObjectProp) (propertyName : String) : Bool :=
  properties.any fun p =>
    match p with
    | .propertyAssignment (.ident text) _ => text = propertyName
    | .methodDeclaration (.ident text) => text = propertyName
    | _ => false

/-- getObjectPropertyValue (objects analysis): literal value of the first
identifier-named property assignment with the queried name; the JS
undefined when there is none. -/
def getObjectPropertyValue (properties : List ObjectProp) (propertyName : String) :
    JSValue :=
  match properties.find? (fun p =>
      match p with
      | .propertyAssignment (.ident text) _ => text = propertyName
      | _ => false) with
  | some (.propertyAssignment _ initializer) => getLiteralValue initializer
  | _ => .undefinedVal

/-- hasObjectProperty (objects analysis): defined as the property value
being distinct from the JS undefined. -/
def hasObjectProperty (properties : List ObjectProp) (propertyName : String) : Bool :=
  getObjectPropertyValue properties propertyName ≠ .undefinedVal

/-! ## Expression type inference (node-analysis.ts) -/

/-- Char-list prefix test (executable). -/
def leadsWith : List Char → List Char → Bool
  | [], _ => true
  | _ :: _, [] => false
  | a :: as, b :: bs => a = b && leadsWith as bs

/-- Substring occurrence of `sub` anywhere in the char list. -/
def hasSubChars (sub : List Char) : List Char → Bool
  | [] => sub.isEmpty
  | a :: rest => leadsWith sub (a :: rest) || hasSubChars sub rest

/-- String.prototype.includes: case-sensitive substring containment. -/
def strIncludes (s sub : String) : Bool := hasSubChars sub.data s.data

/-- JS truthiness of a string-or-null value: null and the empty string are
the falsy cases. -/
def truthyStr : Option String → Bool
  | none => false
  | some s => !(s == "")

/-- JS template interpolation of a string-or-null value. -/
def strOf : Option String → String
  | none => "null"
  | some s => s

/-- The identifier arm of inferTypeFromExpression, factored out because the
source also reaches it through the recursive call on the identifier of a
shorthand property. -/
def inferTypeFromIdentifierName (name : String) : String :=
  if name = "undefined" then "undefined"
  else if strIncludes name "Id" || strIncludes name "Name" || strIncludes name "Key" then
    "string | null | undefined"
  else if strIncludes name "enabled" || strIncludes name "is" || strIncludes name "has" then
    "boolean"
  else "unknown"

/-- Identifier/string-literal text of an object-literal property name. -/
def propKeyText : PropKey → Option String
  | .ident text => some text
  | .strLit text => some text
  | .otherKey => none

mutual

/-- inferTypeFromExpression (node-analysis.ts).  The declared return type is
string-or-null, modelled as Option String.  Arms that the source lets fall
through its remaining kind checks are written with the "unknown" result
those checks reach for that node kind; JS truthiness tests on intermediate
results are modelled by truthyStr. -/
def inferTypeFromExpression : Expression → Option String
  | .stringLiteral _ => some "string"
  | .numericLiteral _ => some "number"
  | .trueKeyword => some "boolean"
  | .falseKeyword => some "boolean"
  | .nullKeyword => some "null"
  | .undefinedKeyword => some "undefined"
  | .arrayLiteral elements =>
      if elements.length > 0 then
        let elementTypes := jsSetOfList (elementTypeList elements)
        if elementTypes.length = 1 ∧ "string" ∈ elementTypes then some "string[]"
        else if elementTypes.length = 1 ∧ "number" ∈ elementTypes then some "number[]"
        else if elementTypes.length = 1 ∧ "boolean" ∈ elementTypes then some "boolean[]"
        else if elementTypes.length > 0 then
          some ("(" ++ String.intercalate " | " elementTypes ++ ")[]")
        else some "unknown[]"
      else some "unknown[]"
  | .objectLiteral properties =>
      let objectProps := objectPropStrings properties
      if objectProps.length > 0 then
        some ("\x7b " ++ String.intercalate "; " objectProps ++ " \x7d")
      else some "\x7b\x7d"
  | .newExpression callee =>
      match callee with
      | .identifier text => if text = "Date" then some "Date" else some "object"
      | _ => some "unknown"
  | .asExpression expression _ =>
      -- both the as-const arm and the unconditional fall-through recurse on
      -- the wrapped expression; the asserted type is never consulted
      inferTypeFromExpression expression
  | .conditionalExpression _ whenTrue whenFalse =>
      let trueType := inferTypeFromExpression whenTrue
      let falseType := inferTypeFromExpression whenFalse
      if truthyStr trueType && truthyStr falseType then
        if trueType = falseType then trueType
        else some (strOf trueType ++ " | " ++ strOf falseType)
      else if truthyStr trueType then trueType
      else if truthyStr falseType then falseType
      else some "unknown"
  | .binaryExpression left op right =>
      match op with
      | .barBar =>
          let leftType := inferTypeFromExpression left
          let rightType := inferTypeFromExpression right
          if truthyStr leftType && truthyStr rightType then
            if leftType = rightType then leftType
            else some (strOf leftType ++ " | " ++ strOf rightType)
          else if truthyStr leftType then leftType
          else if truthyStr rightType then rightType
          else some "unknown"
      | .ampAmp =>
          let rightType := inferTypeFromExpression right
          if truthyStr rightType then rightType else some "unknown"
      | .eqEqEq | .exclEqEq | .ltTok | .gtTok | .leTok | .geTok => some "boolean"
      | .percent | .plus | .minus | .asterisk | .slash => some "number"
      | .otherOp => some "unknown"
  | .callExpression callee =>
      match callee with
      | .propertyAccessExpression receiver methodName =>
          if methodName = "filter" || methodName = "slice" then
            inferTypeFromExpression receiver
          else if methodName = "toString" || methodName = "substr" then some "string"
          else if methodName = "get" then some "string | null"
          else if methodName = "now" || methodName = "random" then some "number"
          else some "unknown"
      | .identifier funcName =>
          if funcName = "parseInt" || funcName = "parseFloat" || funcName = "Number" then
            some "number"
          else if funcName = "String" then some "string"
          else if funcName = "Boolean" then some "boolean"
          else some "unknown"
      | _ => some "unknown"
  | .prefixUnaryExpression op _ =>
      match op with
      | .excl => some "boolean"
      | .plusOp | .minusOp => some "number"
      | .otherUnaryOp => some "unknown"
  | .identifier text => some (inferTypeFromIdentifierName text)
  | .templateExpression => some "string"
  | .noSubstitutionTemplateLiteral _ => some "string"
  | .spreadElement expression => inferTypeFromExpression expression
  | .omittedExpression => some "unknown"
  | .propertyAccessExpression _ _ => some "unknown"
  | .otherExpression => some "unknown"

/-- The element-type collection loop of the array-literal arm: the truthy
inferred types of the elements that are neither omitted nor spreads, in
element order (Set insertion order before deduplication). -/
def elementTypeList : List Expression → List String
  | [] => []
  | e :: es =>
      match e with
      | .omittedExpression => elementTypeList es
      | .spreadElement _ => elementTypeList es
      | _ =>
          match inferTypeFromExpression e with
          | some t => if t ≠ "" then t :: elementTypeList es else elementTypeList es
          | none => elementTypeList es

/-- The property-string collection loop of the object-literal arm. -/
def objectPropStrings : List ObjectProp → List String
  | [] => []
  | .propertyAssignment name initializer :: ps =>
      (match propKeyText name with
       | some propName =>
           if propName ≠ "" then
             match inferTypeFromExpression initializer with
             | some propType =>
                 if propType ≠ "" then
                   (propName ++ ": " ++ propType) :: objectPropStrings ps
                 else objectPropStrings ps
             | none => objectPropStrings ps
           else objectPropStrings ps
       | none => objectPropStrings ps)
  | .shorthandPropertyAssignment name :: ps =>
      let propType := inferTypeFromIdentifierName name
      if propType ≠ "" then (name ++ ": " ++ propType) :: objectPropStrings ps
      else objectPropStrings ps
  | .methodDeclaration _ :: ps => objectPropStrings ps
  | .otherProp :: ps => objectPropStrings ps

end

/-! ## Source files, alias resolution and Promise unwrapping -/

/-- A modifier keyword on a declaration. -/
inductive Modifier where
  | exportKeyword | defaultKeyword | otherModifier
deriving DecidableEq

/-- The bound name of a variable declarator: a plain identifier or a
destructuring pattern. -/
inductive VarDeclName where
  | ident (text : String)
  | bindingPattern
deriving DecidableEq

/-- An element of a named-export list: `name` is the exported (external)
name, `propertyName` the local name before `as` when a rename is present. -/
structure ExportSpecifier where
  propertyName : Option String
  name : String
deriving DecidableEq

/-- The export clause of an export declaration.  A star re-export
`export * from "m"` has no clause at all (it is `Option.none` on the
statement); `export * as ns from "m"` carries a namespace-export clause. -/
inductive ExportClause where
  | namedExports (elements : List ExportSpecifier)
  | namespaceExport (name : String)
deriving DecidableEq

/-- The statement shapes the file-level analyses distinguish.  The analyses
in the source visit every node recursively; the list models the visit order
of the matching constructs. -/
inductive Statement where
  | exportDeclaration (exportClause : Option ExportClause)
  | variableStatement (modifiers : List Modifier) (declNames : List VarDeclName)
  | functionDeclaration (modifiers : List Modifier) (name : Option String)
  | classDeclaration (modifiers : List Modifier) (name : Option String)
  | typeAliasDeclaration (modifiers : List Modifier) (name : String) (type : TypeNode)
  | interfaceDeclaration (modifiers : List Modifier) (name : String)
  | exportAssignment (isExportEquals : Bool)
  | otherStatement

/-- A source file, as the visit order of its statements. -/
abbrev SourceFile := List Statement

/-- resolveTypeAlias (node-analysis.ts): the right-hand type of the first
type-alias declaration with the given name, in visit order. -/
def resolveTypeAlias (typeName : String) : SourceFile → Option TypeNode
  | [] => none
  | .typeAliasDeclaration _ name ty :: rest =>
      if name = typeName then some ty else resolveTypeAlias typeName rest
  | _ :: rest => resolveTypeAlias typeName rest

/-- One JS-object assignment `params[k] = v`: an existing key keeps its
position and takes the new value, a new key is appended. -/
def recordSet (r : List (String × String)) (k v : String) : List (String × String) :=
  if r.any (fun p => p.1 = k) then
    r.map (fun p => if p.1 = k then (k, v) else p)
  else r ++ [(k, v)]

/-- The member loop of parseObjectType: property signatures with a truthy
identifier/string-literal name and a declared type contribute
`params[name] = serializeTypeNode(type)`. -/
def parseObjectMembers (acc : List (String × String)) :
    List TypeMember → List (String × String)
  | [] => acc
  | .propertySignature name type :: ms =>
      (match typePropNameText name with
       | some propName =>
           if propName ≠ "" then
             match type with
             | some ty => parseObjectMembers (recordSet acc propName (serializeTypeNode ty)) ms
             | none => parseObjectMembers acc ms
           else parseObjectMembers acc ms
       | none => parseObjectMembers acc ms)
  | .otherMember :: ms => parseObjectMembers acc ms

/-- parseObjectType (node-analysis.ts).  A type reference with a supplied
source file is resolved through resolveTypeAlias and re-parsed; a type
literal yields its property map; anything else yields the empty map.  The
fuel parameter models the JS call stack for the alias-resolution recursion
(a cyclic alias overflows the stack in the source; with enough fuel every
terminating run of the source is reproduced exactly). -/
def parseObjectType : Nat → TypeNode → Option SourceFile → List (String × String)
  | 0, _, _ => []
  | fuel + 1, typeNode, sourceFile =>
      match typeNode, sourceFile with
      | .typeReference typeName _, some sf =>
          (match resolveTypeAlias typeName sf with
           | some resolvedType => parseObjectType fuel resolvedType sourceFile
           | none =>
               -- resolution failed: the type-literal check below fails for a
               -- reference, so the source returns the empty map
               [])
      | .typeLiteral members, _ => parseObjectMembers [] members
      | _, _ => []

/-- extractReturnTypeFromPromise (node-analysis.ts): unwrap a reference
literally named Promise that has a nonempty type-argument list to its first
type argument, then parse the object type. -/
def extractReturnTypeFromPromise (fuel : Nat) (typeNode : TypeNode)
    (sourceFile : SourceFile) : List (String × String) :=
  let actualType :=
    match typeNode with
    | .typeReference typeName typeArguments =>
        if typeName = "Promise" ∧ typeArguments.length > 0 then
          match typeArguments with
          | innerType :: _ => innerType
          | [] => .typeReference typeName typeArguments
        else .typeReference typeName typeArguments
    | t => t
  parseObjectType fuel actualType (some sourceFile)

/-! ## Export analysis (analysis/exports.ts) -/

/-- The ExportInfo value object; exportType is one of the four literal
strings of the source union type. -/
structure ExportInfo where
  exportType : String
  namedExports : List String
  hasDefaultExport : Bool
deriving DecidableEq, Repr

/-- One visit step of analyzeExports: the three accumulators are the
named-export flag, the default-export flag and the pushed named-export
names (pre-deduplication). -/
def exportVisitStep (acc : Bool × Bool × List String) (node : Statement) :
    Bool × Bool × List String :=
  let (hasNamedExports, hasDefaultExport, namedExports) := acc
  match node with
  | .exportDeclaration exportClause =>
      (match exportClause with
       | some clause =>
           (match clause with
            | .namedExports elements =>
                (true, hasDefaultExport, namedExports ++ elements.map (·.name))
            | .namespaceExport _ => (true, hasDefaultExport, namedExports))
       | none => acc)
  | .variableStatement modifiers declNames =>
      if modifiers.contains .exportKeyword then
        if modifiers.contains .defaultKeyword then (hasNamedExports, true, namedExports)
        else
          (true, hasDefaultExport,
           namedExports ++ declNames.filterMap (fun d =>
             match d with
             | .ident text => some text
             | .bindingPattern => none))
      else acc
  | .functionDeclaration modifiers name =>
      if modifiers.contains .exportKeyword then
        if modifiers.contains .defaultKeyword then (hasNamedExports, true, namedExports)
        else
          (true, hasDefaultExport,
           namedExports ++ (match name with | some n => [n] | none => []))
      else acc
  | .classDeclaration modifiers name =>
      if modifiers.contains .exportKeyword then
        if modifiers.contains .defaultKeyword then (hasNamedExports, true, namedExports)
        else
          (true, hasDefaultExport,
           namedExports ++ (match name with | some n => [n] | none => []))
      else acc
  | .typeAliasDeclaration modifiers name _ =>
      if modifiers.contains .exportKeyword then
        if modifiers.contains .defaultKeyword then (hasNamedExports, true, namedExports)
        else (true, hasDefaultExport, namedExports ++ [name])
      else acc
  | .interfaceDeclaration modifiers name =>
      if modifiers.contains .exportKeyword then
        if modifiers.contains .defaultKeyword then (hasNamedExports, true, namedExports)
        else (true, hasDefaultExport, namedExports ++ [name])
      else acc
  | .exportAssignment isExportEquals =>
      if isExportEquals then acc else (hasNamedExports, true, namedExports)
  | .otherStatement => acc

/-- analyzeExports (analysis/exports.ts). -/
def analyzeExports (sourceFile : SourceFile) : ExportInfo :=
  let res := sourceFile.foldl exportVisitStep (false, false, [])
  let hasNamedExports := res.1
  let hasDefaultExport := res.2.1
  let namedExports := res.2.2
  let exportType : String :=
    if hasNamedExports && hasDefaultExport then "both"
    else if hasDefaultExport then "default"
    else if hasNamedExports then "named"
    else "none"
  { exportType := exportType,
    namedExports := jsSetOfList namedExports,
    hasDefaultExport := hasDefaultExport }

/-! ## The JS Set model deduplicates keeping the first occurrence -/

theorem foldl_pushUnique_eq (l : List String) :
    ∀ acc : List String,
      l.foldl pushUnique acc = acc ++ dedupKeepFirst (l.filter (fun y => y ∉ acc)) := by
  induction l with
  | nil => intro acc; simp [dedupKeepFirst]
  | cons x xs ih =>
      intro acc
      by_cases hx : x ∈ acc
      · have h1 : pushUnique acc x = acc := by simp [pushUnique, hx]
        have h2 : (x :: xs).filter (fun y => y ∉ acc) = xs.filter (fun y => y ∉ acc) := by
          simp [List.filter_cons, hx]
        rw [List.foldl_cons, h1, ih acc, h2]
      · have h1 : pushUnique acc x = acc ++ [x] := by simp [pushUnique, hx]
        have hfe : xs.filter (fun y => y ∉ acc ++ [x]) =
            (xs.filter (fun y => y ∉ acc)).filter (fun y => y ≠ x) := by
          rw [List.filter_filter]
          apply List.filter_congr
          intro y _
          by_cases h1' : y = x <;> by_cases h2' : y ∈ acc <;>
            simp [h1', h2', List.mem_append]
        have hdk : dedupKeepFirst ((x :: xs).filter (fun y => y ∉ acc)) =
            x :: dedupKeepFirst ((xs.filter (fun y => y ∉ acc)).filter (fun y => y ≠ x)) := by
          have hcons : (x :: xs).filter (fun y => y ∉ acc) =
              x :: xs.filter (fun y => y ∉ acc) := by
            simp [List.filter_cons, hx]
          rw [hcons, dedupKeepFirst]
        rw [List.foldl_cons, h1, ih (acc ++ [x]), hfe, hdk]
        simp

theorem jsSetOfList_eq_dedupKeepFirst (l : List String) :
    jsSetOfList l = dedupKeepFirst l := by
  have h := foldl_pushUnique_eq l []
  simpa [jsSetOfList] using h

/-! ## Claim C7 -/

/-- C7: a renamed named-export list element contributes the external name
written after `as`, and the final namedExports list is the raw push list
deduplicated preserving first-seen order.  The first conjunct states the
dedup rule for every source file; the second specializes to a single named
export declaration, whose contributions are exactly the external names of
its elements in order; the third evaluates `export \x7b sum as total \x7d`. -/
theorem analyzeExports_rename_dedup :
    (∀ sf : SourceFile,
        (analyzeExports sf).namedExports =
          dedupKeepFirst ((sf.foldl exportVisitStep (false, false, [])).2.2)) ∧
    (∀ specs : List ExportSpecifier,
        (analyzeExports
            [Statement.exportDeclaration (some (.namedExports specs))]).namedExports =
          dedupKeepFirst (specs.map ExportSpecifier.name)) ∧
    (analyzeExports [Statement.exportDeclaration (some (.namedExports
        [{ propertyName := some "sum", name := "total" }]))]).namedExports = ["total"] := by
  refine ⟨?_, ?_, by decide⟩
  · intro sf
    simp [analyzeExports, jsSetOfList_eq_dedupKeepFirst]
  · intro specs
    simp [analyzeExports, exportVisitStep, jsSetOfList_eq_dedupKeepFirst]

/-! ## Claim C8 -/

/-- C8: for every source file the exportType is one of the four enumerated
strings, and hasDefaultExport holds exactly when exportType is "default" or
"both". -/
theorem analyzeExports_classification_total (sf : SourceFile) :
    ((analyzeExports sf).exportType = "named" ∨
     (analyzeExports sf).exportType = "default" ∨
     (analyzeExports sf).exportType = "both" ∨
     (analyzeExports sf).exportType = "none") ∧
    ((analyzeExports sf).hasDefaultExport = true ↔
      ((analyzeExports sf).exportType = "default" ∨
       (analyzeExports sf).exportType = "both")) := by
  rcases h : sf.foldl exportVisitStep (false, false, []) with ⟨hn, rest⟩
  rcases rest with ⟨hd, names⟩
  cases hn <;> cases hd <;> simp [analyzeExports, h]

/-! ## Claim C10 -/

/-- C10: an export declaration with an export clause sets the named flag
even when the clause lists zero names, so a file whose only statement is
`export \x7b \x7d` classifies as "named" with an empty namedExports list,
while a clause-less star re-export alone classifies as "none"; in general
any single export declaration with a clause classifies as "named". -/
theorem analyzeExports_empty_clause_named :
    analyzeExports [Statement.exportDeclaration (some (ExportClause.namedExports []))] =
      { exportType := "named", namedExports := [], hasDefaultExport := false } ∧
    analyzeExports [Statement.exportDeclaration none] =
      { exportType := "none", namedExports := [], hasDefaultExport := false } ∧
    (∀ clause : ExportClause,
        (analyzeExports [Statement.exportDeclaration (some clause)]).exportType = "named") := by
  refine ⟨by decide, by decide, ?_⟩
  intro clause
  cases clause <;> simp [analyzeExports, exportVisitStep, jsSetOfList]

/-! ## Claim C2 -/

/-- C2 (counterexample): the array-literal union is joined in first-seen
order, not sorted.  For the array literal with elements `"a", 1` the
collected distinct types are `string` then `number`, and the result keeps
that order; the lexicographically sorted join required by the claim would
put `number` first. -/
theorem inferTypeFromExpression_array_not_sorted_cex :
    inferTypeFromExpression
        (.arrayLiteral [.stringLiteral "a", .numericLiteral "1"]) =
      some "(string | number)[]" ∧
    sortStrings ["string", "number"] = ["number", "string"] ∧
    inferTypeFromExpression
        (.arrayLiteral [.stringLiteral "a", .numericLiteral "1"]) ≠
      some ("(" ++ String.intercalate " | " (sortStrings ["string", "number"]) ++ ")[]") := by
  refine ⟨by decide, by decide, ?_⟩
  decide

/-- C2 (amended): the collected element types are the truthy inferred types
of the elements that are neither omitted slots nor spreads, deduplicated in
first-seen order; exactly one collected type that is string, number or
boolean yields that type suffixed with the array brackets; otherwise a
nonempty collection is joined with " | " in first-collected order (not
sorted), parenthesized and suffixed; an empty collection yields
"unknown[]".  The closing conjuncts evaluate the two examples cited by the
claim. -/
theorem inferTypeFromExpression_arrayLiteral_cases :
    (∀ elements : List Expression,
        inferTypeFromExpression (.arrayLiteral elements) =
          (let collected := jsSetOfList (elementTypeList elements)
           if collected = [] then some "unknown[]"
           else if collected = ["string"] then some "string[]"
           else if collected = ["number"] then some "number[]"
           else if collected = ["boolean"] then some "boolean[]"
           else some ("(" ++ String.intercalate " | " collected ++ ")[]"))) ∧
    inferTypeFromExpression (.arrayLiteral []) = some "unknown[]" ∧
    inferTypeFromExpression
        (.arrayLiteral [.numericLiteral "1", .numericLiteral "2", .numericLiteral "3"]) =
      some "number[]" := by
  refine ⟨?_, by decide, by decide⟩
  intro elements
  simp only [inferTypeFromExpression]
  cases elements with
  | nil => simp [elementTypeList, jsSetOfList]
  | cons e es =>
      simp only [List.length_cons, Nat.succ_sub_one, gt_iff_lt, Nat.zero_lt_succ, if_true]
      generalize jsSetOfList (elementTypeList (e :: es)) = collected
      match collected with
      | [] => simp
      | [x] =>
          by_cases hs : x = "string"
          · simp [hs]
          · by_cases hn : x = "number"
            · simp [hs, hn]
            · by_cases hb : x = "boolean"
              · simp [hs, hn, hb]
              · have hs' : ¬ ("string" = x) := fun h => hs h.symm
                have hn' : ¬ ("number" = x) := fun h => hn h.symm
                have hb' : ¬ ("boolean" = x) := fun h => hb h.symm
                simp [hs, hn, hb, hs', hn', hb']
      | x :: y :: rest => simp

/-! ## Claim C3 -/

/-- C3 (counterexample): both empty renderings are as the claim spells them
out, but the type-literal rendering (brace, two spaces, brace) has four
characters, not five. -/
theorem emptyObject_rendering_length_cex :
    serializeTypeNode (.typeLiteral []) = "\x7b  \x7d" ∧
    ("\x7b  \x7d").length = 4 ∧ ¬ ("\x7b  \x7d").length = 5 := by
  refine ⟨by decide, by decide, by decide⟩

/-- C3 (amended): on a type-literal node whose members are all skipped (or
empty) serializeTypeNode returns the four-character string with a brace,
two spaces and a brace, while inferTypeFromExpression on an object-literal
expression whose properties are all skipped (or empty) returns the
two-character braces-only string with no inner spaces. -/
theorem emptyObject_renderings (members : List TypeMember) (props : List ObjectProp)
    (hm : serializeTypeMembers members = [])
    (hp : objectPropStrings props = []) :
    serializeTypeNode (.typeLiteral members) = "\x7b  \x7d" ∧
    ("\x7b  \x7d").length = 4 ∧
    inferTypeFromExpression (.objectLiteral props) = some "\x7b\x7d" ∧
    ("\x7b\x7d").length = 2 := by
  refine ⟨?_, by decide, ?_, by decide⟩
  · simp only [serializeTypeNode, hm]
    decide
  · simp only [inferTypeFromExpression, hp]
    decide

/-- Witness for C3 at a type literal with one skipped member and an object
literal with one skipped property. -/
theorem emptyObject_renderings_witness :
    serializeTypeMembers [TypeMember.otherMember] = [] ∧
    objectPropStrings [ObjectProp.otherProp] = [] ∧
    serializeTypeNode (.typeLiteral [TypeMember.otherMember]) = "\x7b  \x7d" ∧
    inferTypeFromExpression (.objectLiteral [ObjectProp.otherProp]) = some "\x7b\x7d" := by
  have hm : serializeTypeMembers [TypeMember.otherMember] = [] := by decide
  have hp : objectPropStrings [ObjectProp.otherProp] = [] := by decide
  exact ⟨hm, hp, (emptyObject_renderings _ _ hm hp).1,
    (emptyObject_renderings _ _ hm hp).2.2.1⟩

/-! ## Claim C4 -/

/-- C4 (counterexample): a reference named Promise with two type arguments
is unwrapped to its first argument, while the claim requires such a node to
be used unchanged.  With an empty source file, parsing the unchanged
reference yields the empty property map, but extractReturnTypeFromPromise
parses the substituted first argument. -/
theorem extractReturnTypeFromPromise_two_args_cex :
    extractReturnTypeFromPromise 10
        (.typeReference "Promise"
          [.typeLiteral [.propertySignature (.ident "a") (some .stringKeyword)],
           .numberKeyword]) [] = [("a", "string")] ∧
    parseObjectType 10
        (.typeReference "Promise"
          [.typeLiteral [.propertySignature (.ident "a") (some .stringKeyword)],
           .numberKeyword]) (some []) = [] ∧
    ¬ extractReturnTypeFromPromise 10
        (.typeReference "Promise"
          [.typeLiteral [.propertySignature (.ident "a") (some .stringKeyword)],
           .numberKeyword]) [] =
      parseObjectType 10
        (.typeReference "Promise"
          [.typeLiteral [.propertySignature (.ident "a") (some .stringKeyword)],
           .numberKeyword]) (some []) := by
  refine ⟨by decide, by decide, by decide⟩

/-- The unwrap step of the amended claim: substitute the first type argument
exactly when the node is a type reference literally named Promise with at
least one type argument; every other node is used unchanged. -/
def promiseUnwrapStep : TypeNode → TypeNode
  | .typeReference name (a :: rest) =>
      if name = "Promise" then a else .typeReference name (a :: rest)
  | t => t

/-- C4 (amended): extractReturnTypeFromPromise parses exactly the
promiseUnwrapStep of its input, i.e. it substitutes the first type argument
if and only if the input is a reference literally named Promise with at
least one type argument (not exactly one), and uses every other node
unchanged. -/
theorem extractReturnTypeFromPromise_unwrap_first (fuel : Nat) (t : TypeNode)
    (sf : SourceFile) :
    extractReturnTypeFromPromise fuel t sf =
      parseObjectType fuel (promiseUnwrapStep t) (some sf) := by
  cases t with
  | typeReference name args =>
      cases args with
      | nil => simp [extractReturnTypeFromPromise, promiseUnwrapStep]
      | cons a rest =>
          by_cases h : name = "Promise" <;>
            simp [extractReturnTypeFromPromise, promiseUnwrapStep, h]
  | stringKeyword => rfl
  | numberKeyword => rfl
  | booleanKeyword => rfl
  | nullKeyword => rfl
  | undefinedKeyword => rfl
  | voidKeyword => rfl
  | anyKeyword => rfl
  | unknownKeyword => rfl
  | neverKeyword => rfl
  | arrayType elementType => rfl
  | unionType types => rfl
  | intersectionType types => rfl
  | literalType literal => rfl
  | typeLiteral members => rfl
  | parenthesizedType inner => rfl
  | otherTypeNode text => rfl

/-! ## Claim C5 -/

/-- C5 (counterexample): getLiteralValue returns the same JS undefined for
an undefined-keyword node as for a non-literal node (the marker is not
distinct from absent), and getArrayLiteralValues drops the undefined marker
from the result (only the null marker survives). -/
theorem getLiteralValue_undefined_marker_cex :
    getLiteralValue Expression.undefinedKeyword =
      getLiteralValue (Expression.identifier "notALiteral") ∧
    getArrayLiteralValues
        (Expression.arrayLiteral [Expression.undefinedKeyword, Expression.nullKeyword]) =
      [JSValue.nullVal] := by
  exact ⟨rfl, by decide⟩

/-- C5 (amended): getLiteralValue yields the JS undefined for an
undefined-keyword node, coinciding with the absent/not-a-literal fallback,
and getArrayLiteralValues filters out every undefined entry (genuine
undefined markers included) while keeping the remaining extracted values,
null markers among them, in element order. -/
theorem getArrayLiteralValues_filtering (elements : List Expression) (e : Expression)
    (hlit : getLiteralValue e ≠ JSValue.undefinedVal) (hmem : e ∈ elements) :
    getLiteralValue Expression.undefinedKeyword = JSValue.undefinedVal ∧
    JSValue.undefinedVal ∉ getArrayLiteralValues (Expression.arrayLiteral elements) ∧
    getLiteralValue e ∈ getArrayLiteralValues (Expression.arrayLiteral elements) ∧
    getArrayLiteralValues (Expression.arrayLiteral elements) =
      (elements.map getLiteralValue).filter (fun val => val ≠ JSValue.undefinedVal) := by
  refine ⟨rfl, ?_, ?_, rfl⟩
  · intro hmem2
    rw [getArrayLiteralValues] at hmem2
    have h2 := (List.mem_filter.mp hmem2).2
    simp at h2
  · rw [getArrayLiteralValues]
    exact List.mem_filter.mpr ⟨List.mem_map_of_mem _ hmem, by simpa using hlit⟩

/-- Witness for C5 at an array holding a single null literal. -/
theorem getArrayLiteralValues_filtering_witness :
    getLiteralValue Expression.nullKeyword ≠ JSValue.undefinedVal ∧
    Expression.nullKeyword ∈ [Expression.nullKeyword] ∧
    JSValue.undefinedVal ∉
      getArrayLiteralValues (Expression.arrayLiteral [Expression.nullKeyword]) ∧
    getLiteralValue Expression.nullKeyword ∈
      getArrayLiteralValues (Expression.arrayLiteral [Expression.nullKeyword]) := by
  have h1 : getLiteralValue Expression.nullKeyword ≠ JSValue.undefinedVal := by decide
  have h2 : Expression.nullKeyword ∈ [Expression.nullKeyword] := List.mem_singleton.mpr rfl
  have h := getArrayLiteralValues_filtering [Expression.nullKeyword] Expression.nullKeyword h1 h2
  exact ⟨h1, h2, h.2.1, h.2.2.1⟩

/-! ## Claim C6 -/

/-- C6 (counterexample): hasObjectProperty reports an identifier-named
property assignment with a non-literal initializer as absent, and a
matching method-declaration slot as absent, while hasProperty reports the
former present — so the presence test the claim describes does not hold of
hasObjectProperty. -/
theorem hasObjectProperty_value_shape_cex :
    hasObjectProperty
        [ObjectProp.propertyAssignment (PropKey.ident "a")
          (Expression.identifier "someVariable")] "a" = false ∧
    hasObjectProperty [ObjectProp.methodDeclaration (PropKey.ident "m")] "m" = false ∧
    hasProperty
        [ObjectProp.propertyAssignment (PropKey.ident "a")
          (Expression.identifier "someVariable")] "a" = true := by
  refine ⟨by decide, by decide, by decide⟩

/-- C6 (amended): hasProperty (node-analysis) is the presence test the
claim describes — true for any identifier-named property assignment
regardless of the initializer's shape, and true for a matching
method-declaration slot; hasObjectProperty (objects analysis) instead
reports a property present exactly when its initializer's literal
extraction is not the JS undefined, so non-literal initializers and method
slots are reported absent. -/
theorem property_presence_queries (props : List ObjectProp) (name : String)
    (init initLit : Expression)
    (hmem : ObjectProp.propertyAssignment (PropKey.ident name) init ∈ props)
    (hlit : getLiteralValue initLit ≠ JSValue.undefinedVal) :
    hasProperty props name = true ∧
    hasProperty (ObjectProp.methodDeclaration (PropKey.ident name) :: props) name = true ∧
    hasObjectProperty
        [ObjectProp.propertyAssignment (PropKey.ident name) initLit] name = true ∧
    hasObjectProperty
        [ObjectProp.propertyAssignment (PropKey.ident name)
          (Expression.identifier "someVariable")] name = false ∧
    hasObjectProperty [ObjectProp.methodDeclaration (PropKey.ident name)] name = false := by
  refine ⟨?_, ?_, ?_, ?_, ?_⟩
  · rw [hasProperty, List.any_eq_true]
    exact ⟨_, hmem, by simp⟩
  · rw [hasProperty, List.any_eq_true]
    exact ⟨_, List.mem_cons_self _ _, by simp⟩
  · simp [hasObjectProperty, getObjectPropertyValue, List.find?, hlit]
  · simp [hasObjectProperty, getObjectPropertyValue, List.find?, getLiteralValue]
  · simp [hasObjectProperty, getObjectPropertyValue, List.find?]

/-- Witness for C6 at an object literal with one non-literal-valued
property. -/
theorem property_presence_queries_witness :
    ObjectProp.propertyAssignment (PropKey.ident "a") (Expression.identifier "x") ∈
      [ObjectProp.propertyAssignment (PropKey.ident "a") (Expression.identifier "x")] ∧
    getLiteralValue (Expression.stringLiteral "v") ≠ JSValue.undefinedVal ∧
    hasProperty
      [ObjectProp.propertyAssignment (PropKey.ident "a") (Expression.identifier "x")] "a"
        = true ∧
    hasObjectProperty
      [ObjectProp.propertyAssignment (PropKey.ident "a") (Expression.stringLiteral "v")] "a"
        = true := by
  have h1 : ObjectProp.propertyAssignment (PropKey.ident "a") (Expression.identifier "x") ∈
      [ObjectProp.propertyAssignment (PropKey.ident "a") (Expression.identifier "x")] :=
    List.mem_singleton.mpr rfl
  have h2 : getLiteralValue (Expression.stringLiteral "v") ≠ JSValue.undefinedVal := by decide
  have h := property_presence_queries
    [ObjectProp.propertyAssignment (PropKey.ident "a") (Expression.identifier "x")]
    "a" (Expression.identifier "x") (Expression.stringLiteral "v") h1 h2
  exact ⟨h1, h2, h.1, h.2.2.1⟩

/-! ## Claim C9 -/

theorem append_ne_empty_of_right (a : String) {b : String} (h : b ≠ "") :
    a ++ b ≠ "" := by
  intro hc
  apply h
  have hd : a.data ++ b.data = [] := by
    have hx := congrArg String.data hc
    simpa using hx
  exact string_eq_of_data_eq (by simp [(List.append_eq_nil.mp hd).2])

theorem append_ne_empty_of_left {a : String} (b : String) (h : a ≠ "") :
    a ++ b ≠ "" := by
  intro hc
  apply h
  have hd : a.data ++ b.data = [] := by
    have hx := congrArg String.data hc
    simpa using hx
  exact string_eq_of_data_eq (by simp [(List.append_eq_nil.mp hd).1])

theorem truthyStr_some_of_ne {s : String} (h : s ≠ "") :
    truthyStr (some s) = true := by
  simp [truthyStr, h]

theorem inferTypeFromIdentifierName_ne_empty (name : String) :
    inferTypeFromIdentifierName name ≠ "" := by
  unfold inferTypeFromIdentifierName
  split
  · decide
  · split
    · decide
    · split
      · decide
      · decide

theorem truthyStr_infer_aux :
    ∀ (n : Nat) (e : Expression), sizeOf e ≤ n →
      truthyStr (inferTypeFromExpression e) = true := by
  intro n
  induction n with
  | zero =>
      intro e he
      exfalso
      cases e <;> simp_arith at he
  | succ n ih =>
      intro e he
      cases e with
      | stringLiteral text => rfl
      | numericLiteral text => rfl
      | trueKeyword => rfl
      | falseKeyword => rfl
      | nullKeyword => rfl
      | undefinedKeyword => rfl
      | omittedExpression => rfl
      | templateExpression => rfl
      | noSubstitutionTemplateLiteral text => rfl
      | propertyAccessExpression expression name => rfl
      | otherExpression => rfl
      | identifier text =>
          exact truthyStr_some_of_ne (inferTypeFromIdentifierName_ne_empty text)
      | prefixUnaryExpression op operand => cases op <;> rfl
      | newExpression callee =>
          cases callee <;>
            first
            | rfl
            | (simp only [inferTypeFromExpression]; split <;> rfl)
      | asExpression expression asserted =>
          simp only [inferTypeFromExpression]
          apply ih
          simp at he
          omega
      | spreadElement expression =>
          simp only [inferTypeFromExpression]
          apply ih
          simp at he
          omega
      | arrayLiteral elements =>
          simp only [inferTypeFromExpression]
          split
          · split
            · rfl
            · split
              · rfl
              · split
                · rfl
                · split
                  · exact truthyStr_some_of_ne (append_ne_empty_of_right _ (by decide))
                  · rfl
          · rfl
      | objectLiteral properties =>
          simp only [inferTypeFromExpression]
          split
          · exact truthyStr_some_of_ne (append_ne_empty_of_right _ (by decide))
          · rfl
      | conditionalExpression c t f =>
          simp only [inferTypeFromExpression]
          split
          · rename_i hb
            rw [Bool.and_eq_true] at hb
            split
            · exact hb.1
            · exact truthyStr_some_of_ne
                (append_ne_empty_of_left _ (append_ne_empty_of_right _ (by decide)))
          · split
            · rename_i ht; exact ht
            · split
              · rename_i hf; exact hf
              · rfl
      | binaryExpression left op right =>
          cases op with
          | barBar =>
              simp only [inferTypeFromExpression]
              split
              · rename_i hb
                rw [Bool.and_eq_true] at hb
                split
                · exact hb.1
                · exact truthyStr_some_of_ne
                    (append_ne_empty_of_left _ (append_ne_empty_of_right _ (by decide)))
              · split
                · rename_i h; exact h
                · split
                  · rename_i h; exact h
                  · rfl
          | ampAmp =>
              simp only [inferTypeFromExpression]
              split
              · rename_i h; exact h
              · rfl
          | eqEqEq => rfl
          | exclEqEq => rfl
          | ltTok => rfl
          | gtTok => rfl
          | leTok => rfl
          | geTok => rfl
          | percent => rfl
          | plus => rfl
          | minus => rfl
          | asterisk => rfl
          | slash => rfl
          | otherOp => rfl
      | callExpression callee =>
          cases callee <;> try rfl
          case propertyAccessExpression receiver methodName =>
            simp only [inferTypeFromExpression]
            split
            · apply ih
              simp at he
              omega
            · split
              · rfl
              · split
                · rfl
                · split
                  · rfl
                  · rfl
          case identifier funcName =>
            simp only [inferTypeFromExpression]
            split
            · rfl
            · split
              · rfl
              · split
                · rfl
                · rfl

/-- C9: inferTypeFromExpression is total over expression nodes and never
returns null or the empty string — despite the declared string-or-null
return type, every expression yields some nonempty string (with "unknown"
as the final fallback), so every does-the-branch-resolve truthiness test on
a recursive result inside the conditional and logical-or merge rules
observes a non-null value. -/
theorem inferTypeFromExpression_total_nonempty (e : Expression) :
    ∃ s, inferTypeFromExpression e = some s ∧ s ≠ "" := by
  have h := truthyStr_infer_aux (sizeOf e) e (le_refl _)
  cases hi : inferTypeFromExpression e with
  | none => rw [hi] at h; simp [truthyStr] at h
  | some s =>
      rw [hi] at h
      refine ⟨s, rfl, ?_⟩
      simpa [truthyStr] using h

end TsAstUtils
